import Mathlib

/-!
Verification of the backup-operator S3 destination (pkg/s3/s3_destination.go):
construction (`NewS3Destination`), artifact upload (`Store`) and retention
enforcement (`EnsureRetention`) together with the comparator of
`sortableObjectSlice`.  The AWS SDK backend (bucket creation, paginated
listing, upload, HeadObject, DeleteObject) is modelled by explicit function
parameters; `*time.Time` values are modelled as pointers (`Nat` cell ids)
together with a heap `hp : Nat → Int` giving the pointed-to time, so that
Go pointer comparison (`==` on `*time.Time`) and dereferencing
(`time.Time.After`) are both expressible.
-/

/-- One listed artifact (`s3.Object`): its `Key` (dereferenced, Go never
compares key pointers) and its `LastModified` field, which in Go is a
`*time.Time` pointer and is therefore modelled as the identity of the
pointed-to cell.  The time value itself is `hp lastModified` for the
ambient heap `hp`. -/
structure S3Object where
  key : String
  lastModified : Nat
deriving DecidableEq

/-- Comparator of `sortableObjectSlice.Less` (s3_destination.go):
`if s[i].LastModified == s[j].LastModified { return *s[i].Key < *s[j].Key };
return s[i].LastModified.After(*s[j].LastModified)`.
The first test compares the two `*time.Time` POINTERS, hence the model
compares cell ids; only the `After` call dereferences, hence the heap is
consulted only in the second branch. -/
def sortableLess (hp : Nat → Int) (a b : S3Object) : Bool :=
  if a.lastModified = b.lastModified then decide (a.key < b.key)
  else decide (hp b.lastModified < hp a.lastModified)

/-- Comparator used only in proofs: strictly more recent first, always
dereferencing.  On listings whose artifacts have pairwise distinct times it
agrees with `sortableLess`. -/
def timeLess (hp : Nat → Int) (a b : S3Object) : Bool :=
  decide (hp b.lastModified < hp a.lastModified)

/-- One bubbling pass of Go's insertion sort (`sort.Sort` runs insertion
sort on short ranges): the new element `a` is compared against the reversed
already-sorted prefix and swaps left while `less` holds against its left
neighbour.  The list argument is the prefix in reversed order (head =
rightmost element). -/
def insRev (less : α → α → Bool) (a : α) : List α → List α
  | [] => [a]
  | b :: bs => if less a b then b :: insRev less a bs else a :: b :: bs

/-- Left-to-right driver of the insertion sort: `acc` is the reversed
sorted prefix. -/
def goSortAux (less : α → α → Bool) : List α → List α → List α
  | acc, [] => acc.reverse
  | acc, x :: rest => goSortAux less (insRev less x acc) rest

/-- Model of `sort.Sort(objects)`: deterministic insertion sort with the
given comparator, exactly Go's element-movement discipline (a new element
moves left only while strictly `Less` than its left neighbour, so the
input order of mutually incomparable elements is preserved, as in Go's
insertion sort). -/
def goSort (less : α → α → Bool) (l : List α) : List α := goSortAux less [] l

/-- Accumulation of `ListObjectsPages` (s3_destination.go lines 204-208):
the page callback appends `page.Contents` to `objects` and always returns
`true`, so the result is the left fold of append over all pages. -/
def listAllPages (pages : List (List S3Object)) : List S3Object :=
  pages.foldl (fun acc page => acc ++ page) []

/-- Error returned by `EnsureRetention`: either the listing failed or some
`DeleteObject` call failed; the payload is the identity of the underlying
backend error. -/
inductive RetErr where
  | listFailed (e : Nat)
  | deleteFailed (e : Nat)
deriving DecidableEq

/-- The deletion loop of `EnsureRetention` (lines 216-225): issues one
`DeleteObject` per obsolete artifact in order, returning the keys of the
delete calls actually issued and the first error.  On the first failing
delete the loop returns immediately, so no later call is issued. -/
def deleteLoop (delete : String → Option Nat) : List S3Object → List String × Option RetErr
  | [] => ([], none)
  | o :: rest =>
    match delete o.key with
    | some e => ([o.key], some (RetErr.deleteFailed e))
    | none =>
      let r := deleteLoop delete rest
      (o.key :: r.1, r.2)

/-- Model of `(*S3Destination).EnsureRetention(max)`.  `hp` is the heap of
`time.Time` cells, `listErr` the outcome of `ListObjectsPages` (`some e`
models a listing error, in which case Go returns before any decision),
`delete` the backend's `DeleteObject` behaviour per key, and `pages` the
pages produced by the listing (every artifact the backend reports under
the configured bucket and prefix).  The value is `none` when the Go code
panics (the slice expression `objects[max:]` with a negative `max`), and
otherwise `some (calls, err)` where `calls` are the keys of the issued
`DeleteObject` calls in order and `err` is the returned error. -/
def EnsureRetention (hp : Nat → Int) (listErr : Option Nat)
    (delete : String → Option Nat) (pages : List (List S3Object)) (max : Int) :
    Option (List String × Option RetErr) :=
  let objects := listAllPages pages
  match listErr with
  | some e => some ([], some (RetErr.listFailed e))
  | none =>
    if (objects.length : Int) > max then
      let sorted := goSort (sortableLess hp) objects
      if max < 0 then
        none
      else
        let obsolete := sorted.drop max.toNat
        if objects.length > 0 then
          some (deleteLoop delete obsolete)
        else
          some ([], none)
    else
      some ([], none)

/-! ### Path construction: `filepath.Join` / `filepath.Clean` (unix rules) -/

/-- Split a character list on `'/'` (the unix path separator). -/
def splitSlash : List Char → List (List Char)
  | [] => [[]]
  | c :: rest =>
    if c = '/' then [] :: splitSlash rest
    else
      match splitSlash rest with
      | [] => [[c]]
      | p :: ps => (c :: p) :: ps

/-- Element processing of Go's `path.Clean`: empty and `.` elements are
dropped, `..` pops the last kept element (except that leading `..`
elements of a relative path are kept, and `..` at the root is dropped);
`stack` is the list of kept elements in reverse order. -/
def cleanParts (rooted : Bool) : List (List Char) → List (List Char) → List (List Char)
  | stack, [] => stack.reverse
  | stack, part :: rest =>
    if part = [] ∨ part = ['.'] then cleanParts rooted stack rest
    else if part = ['.', '.'] then
      match stack with
      | [] => if rooted then cleanParts rooted [] rest else cleanParts rooted [['.', '.']] rest
      | top :: stk =>
        if top = ['.', '.'] then cleanParts rooted (part :: top :: stk) rest
        else cleanParts rooted stk rest
    else cleanParts rooted (part :: stack) rest

/-- Join path elements with `'/'`. -/
def joinSlash : List (List Char) → List Char
  | [] => []
  | [p] => p
  | p :: ps => p ++ '/' :: joinSlash ps

/-- Character-level model of Go's `filepath.Clean` on unix: `""` cleans to
`"."`, a rooted result keeps its leading `'/'`, and an empty relative
result is `"."`. -/
def cleanPathData (l : List Char) : List Char :=
  if l = [] then ['.']
  else
    let rooted := decide (l.head? = some '/')
    let body := joinSlash (cleanParts rooted [] (splitSlash l))
    if rooted then '/' :: body
    else if body = [] then ['.'] else body

/-- String wrapper of `cleanPathData`. -/
def cleanPath (s : String) : String := ⟨cleanPathData s.data⟩

/-- Model of `filepath.Join(a, b)`: skip leading empty elements, join the
rest with `'/'` and clean the result; `Join()` of only empty elements is
`""`. -/
def goJoin (a b : String) : String :=
  if a = "" then (if b = "" then "" else cleanPath b) else cleanPath (a ++ "/" ++ b)

/-! ### The destination and its construction -/

/-- Configuration structure `S3DestinationConf` (s3_destination.go lines
83-94); `pfx` models the Go field `Prefix`. -/
structure S3DestinationConf where
  endpoint : String
  accessKey : String
  secretKey : String
  encryptionKey : Option String
  encryptionAlgorithm : String
  disableSSL : Bool
  insecureSkipVerify : Bool
  bucket : String
  pfx : String
  partSize : Int
deriving DecidableEq

/-- The destination `S3Destination` (lines 141-150).  The Go struct's
`Session`, `Client`, `Uploader` and `log` fields are transport handles;
their observable behaviour is modelled by the backend function parameters
of each operation, and the uploader's configured part size is kept as
`partSize`.  `pfx` models the Go field `Prefix`. -/
structure S3Destination where
  encryptionKey : Option String
  encryptionAlgorithm : String
  bucket : String
  pfx : String
  partSize : Int
deriving DecidableEq

/-- The destination value built by a successful `NewS3Destination(conf)`:
every field is copied from the configuration (lines 127-138). -/
def mkS3Destination (conf : S3DestinationConf) : S3Destination :=
  { encryptionKey := conf.encryptionKey
    encryptionAlgorithm := conf.encryptionAlgorithm
    bucket := conf.bucket
    pfx := conf.pfx
    partSize := conf.partSize }

/-- Outcome of the backend's `CreateBucket` call when it fails: either an
error implementing the `awserr.Error` interface (carrying a code string)
or any other error value. -/
inductive CreateBucketError where
  | awsError (code : String)
  | otherError (e : Nat)
deriving DecidableEq

/-- SDK constant `s3.ErrCodeBucketAlreadyExists`. -/
def errCodeBucketAlreadyExists : String := "BucketAlreadyExists"

/-- SDK constant `s3.ErrCodeBucketAlreadyOwnedByYou`. -/
def errCodeBucketAlreadyOwnedByYou : String := "BucketAlreadyOwnedByYou"

/-- Error returned by `NewS3Destination`: the session construction failed
or the bucket creation failed. -/
inductive NewDestinationError where
  | sessionError (e : Nat)
  | createBucketError (e : CreateBucketError)
deriving DecidableEq

/-- Model of `NewS3Destination(conf)` (lines 96-139): a session error is
returned as-is; then `CreateBucket` is attempted and its error is ignored
exactly when it is an `awserr.Error` whose code is
`BucketAlreadyExists` or `BucketAlreadyOwnedByYou` (line 118-126); any
other error aborts construction.  On success the destination holds the
configuration's fields. -/
def NewS3Destination (conf : S3DestinationConf) (sessionResult : Option Nat)
    (createBucketResult : Option CreateBucketError) :
    Except NewDestinationError S3Destination :=
  match sessionResult with
  | some e => Except.error (NewDestinationError.sessionError e)
  | none =>
    match createBucketResult with
    | some err =>
      match err with
      | CreateBucketError.awsError code =>
        if code ≠ errCodeBucketAlreadyExists ∧ code ≠ errCodeBucketAlreadyOwnedByYou then
          Except.error (NewDestinationError.createBucketError err)
        else
          Except.ok (mkS3Destination conf)
      | CreateBucketError.otherError _ =>
        Except.error (NewDestinationError.createBucketError err)
    | none => Except.ok (mkS3Destination conf)

/-! ### Store -/

/-- Modelled from the spec: the default server-side-encryption algorithm
constant `DefaultEncryptionAlgorithm`, whose defining file is not among
the provided sources; the spec only requires it to be one fixed constant
used whenever a key is configured without an explicit algorithm. -/
def DefaultEncryptionAlgorithm : String := "AES256"

/-- A backup artifact (`backup.Object`): stable identifier and readable
byte stream (the stream's contents). -/
structure BackupObject where
  id : String
  data : List Nat
deriving DecidableEq

/-- The `s3manager.UploadInput` fields set by `Store` (lines 154-167). -/
structure UploadInput where
  bucket : String
  key : String
  body : List Nat
  sseCustomerAlgorithm : Option String
  sseCustomerKey : Option String
deriving DecidableEq

/-- The `s3.HeadObjectInput` fields set by `Store` (lines 176-188). -/
structure HeadObjectInput where
  bucket : String
  key : String
  sseCustomerAlgorithm : Option String
  sseCustomerKey : Option String
deriving DecidableEq

/-- Upload acknowledgment (`s3manager.UploadOutput`); it carries no size,
which is why `Store` must ask `HeadObject` for the stored size. -/
structure UploadAck where
  location : String
deriving DecidableEq

/-- `HeadObject` response, restricted to the field `Store` reads. -/
structure HeadOutput where
  contentLength : Int
deriving DecidableEq

/-- One backend call issued by `Store`, with the full input it carried. -/
inductive StoreCall where
  | upload (input : UploadInput)
  | headObject (input : HeadObjectInput)
deriving DecidableEq

/-- Encryption algorithm attached to a call. -/
def StoreCall.sseAlg : StoreCall → Option String
  | StoreCall.upload i => i.sseCustomerAlgorithm
  | StoreCall.headObject i => i.sseCustomerAlgorithm

/-- Encryption key attached to a call. -/
def StoreCall.sseKey : StoreCall → Option String
  | StoreCall.upload i => i.sseCustomerKey
  | StoreCall.headObject i => i.sseCustomerKey

/-- Object key a call addresses. -/
def StoreCall.callKey : StoreCall → String
  | StoreCall.upload i => i.key
  | StoreCall.headObject i => i.key

/-- Upload parameters built by `Store` (lines 154-167): encryption fields
are set only when a key is configured, with the configured algorithm, or
`DefaultEncryptionAlgorithm` when the configured algorithm is empty. -/
def uploadParamsFor (s : S3Destination) (key : String) (body : List Nat) : UploadInput :=
  let base : UploadInput :=
    { bucket := s.bucket, key := key, body := body,
      sseCustomerAlgorithm := none, sseCustomerKey := none }
  match s.encryptionKey with
  | some _ =>
    if s.encryptionAlgorithm = "" then
      { base with sseCustomerAlgorithm := some DefaultEncryptionAlgorithm,
                  sseCustomerKey := s.encryptionKey }
    else
      { base with sseCustomerAlgorithm := some s.encryptionAlgorithm,
                  sseCustomerKey := s.encryptionKey }
  | none => base

/-- `HeadObject` parameters built by `Store` (lines 176-188): the same
encryption-field logic as the upload. -/
def headParamsFor (s : S3Destination) (key : String) : HeadObjectInput :=
  let base : HeadObjectInput :=
    { bucket := s.bucket, key := key,
      sseCustomerAlgorithm := none, sseCustomerKey := none }
  match s.encryptionKey with
  | some _ =>
    if s.encryptionAlgorithm = "" then
      { base with sseCustomerAlgorithm := some DefaultEncryptionAlgorithm,
                  sseCustomerKey := s.encryptionKey }
    else
      { base with sseCustomerAlgorithm := some s.encryptionAlgorithm,
                  sseCustomerKey := s.encryptionKey }
  | none => base

/-- Model of `(*S3Destination).Store(obj)` (lines 152-195).  `upload` and
`head` are the backend's behaviours for the two calls.  The result is the
Go return value (size, error) paired with the list of backend calls
issued, in order: the key is `filepath.Join(s.Prefix, obj.ID)`; an upload
error is returned with size 0 before any further call; otherwise the
follow-up `HeadObject` either fails (returned with size 0) or supplies
the returned `ContentLength`. -/
def Store (s : S3Destination) (upload : UploadInput → Except Nat UploadAck)
    (head : HeadObjectInput → Except Nat HeadOutput) (obj : BackupObject) :
    (Int × Option Nat) × List StoreCall :=
  let key := goJoin s.pfx obj.id
  let params := uploadParamsFor s key obj.data
  match upload params with
  | Except.error e => ((0, some e), [StoreCall.upload params])
  | Except.ok _ =>
    let headInput := headParamsFor s key
    match head headInput with
    | Except.error e =>
      ((0, some e), [StoreCall.upload params, StoreCall.headObject headInput])
    | Except.ok h =>
      ((h.contentLength, none), [StoreCall.upload params, StoreCall.headObject headInput])

/-! ### Example inputs used by the witnesses -/

/-- Example heap: cell `n` holds time `n`. -/
def hpEx : Nat → Int := fun n => (n : Int)

/-- Backend whose deletes always succeed. -/
def delOk : String → Option Nat := fun _ => none

/-- Example artifacts `k1..k5` with times `t1 < ... < t5` (cell ids 1..5). -/
def k1ex : S3Object := ⟨"k1", 1⟩

/-- Second example artifact. -/
def k2ex : S3Object := ⟨"k2", 2⟩

/-- Third example artifact. -/
def k3ex : S3Object := ⟨"k3", 3⟩

/-- Fourth example artifact. -/
def k4ex : S3Object := ⟨"k4", 4⟩

/-- Fifth example artifact. -/
def k5ex : S3Object := ⟨"k5", 5⟩

/-- Example two-page listing of the five artifacts. -/
def pagesEx : List (List S3Object) := [[k1ex, k2ex, k3ex], [k4ex, k5ex]]

/-- Heap for the tie scenario: every cell holds the same time. -/
def hpTie : Nat → Int := fun _ => 0

/-- Tie-scenario artifact with key `a` in cell 1. -/
def tieA : S3Object := ⟨"a", 1⟩

/-- Tie-scenario artifact with key `b` in cell 2. -/
def tieB : S3Object := ⟨"b", 2⟩

/-- Backend whose delete fails (with error 7) exactly on key `k1`. -/
def delFailK1 : String → Option Nat := fun k => if k = "k1" then some 7 else none

/-- Example configuration. -/
def confEx : S3DestinationConf :=
  { endpoint := "http://localhost:9000", accessKey := "ak", secretKey := "sk",
    encryptionKey := some "enckey", encryptionAlgorithm := "",
    disableSSL := true, insecureSkipVerify := false,
    bucket := "bkt", pfx := "backups", partSize := 5242880 }

/-- Example destination (the one `NewS3Destination confEx` builds). -/
def destEx : S3Destination := mkS3Destination confEx

/-- Example artifact to store. -/
def objEx : BackupObject := ⟨"artifact1", [10, 20, 30]⟩

/-- Backend whose uploads always succeed. -/
def uploadOkEx : UploadInput → Except Nat UploadAck := fun _ => Except.ok ⟨"loc"⟩

/-- Backend whose `HeadObject` always succeeds reporting size 42. -/
def headOkEx : HeadObjectInput → Except Nat HeadOutput := fun _ => Except.ok ⟨42⟩

/-! ### Lemmas about the insertion sort model -/

/-- Inserting an element produces a permutation of consing it. -/
theorem insRev_perm (less : α → α → Bool) (a : α) (l : List α) :
    List.Perm (insRev less a l) (a :: l) := by
  induction l with
  | nil => exact List.Perm.refl _
  | cons b bs ih =>
    cases hab : less a b with
    | true =>
      simp only [insRev, hab, if_true]
      exact (ih.cons b).trans (List.Perm.swap a b bs)
    | false =>
      simp only [insRev, hab]
      exact List.Perm.refl _

/-- Membership through `insRev`. -/
theorem insRev_mem (less : α → α → Bool) (a x : α) (l : List α) :
    x ∈ insRev less a l ↔ x = a ∨ x ∈ l := by
  simpa using (insRev_perm less a l).mem_iff

/-- The driver returns a permutation of prefix and pending input. -/
theorem goSortAux_perm (less : α → α → Bool) (l : List α) :
    ∀ acc : List α, List.Perm (goSortAux less acc l) (acc.reverse ++ l) := by
  induction l with
  | nil => intro acc; simp [goSortAux]
  | cons x rest ih =>
    intro acc
    simp only [goSortAux]
    refine (ih (insRev less x acc)).trans ?_
    have h1 : List.Perm (insRev less x acc).reverse (x :: acc) :=
      (insRev less x acc).reverse_perm.trans (insRev_perm less x acc)
    refine (h1.append_right rest).trans ?_
    have h2 : List.Perm (acc.reverse ++ x :: rest) (x :: (acc.reverse ++ rest)) :=
      List.perm_middle
    have h3 : List.Perm (x :: (acc ++ rest)) (x :: (acc.reverse ++ rest)) :=
      (acc.reverse_perm.symm.append_right rest).cons x
    exact h3.trans h2.symm

/-- `goSort` permutes its input. -/
theorem goSort_perm (less : α → α → Bool) (l : List α) :
    List.Perm (goSort less l) l := by
  simpa [goSort] using goSortAux_perm less l []

/-- Congruence of insertion in the comparator. -/
theorem insRev_congr (f g : α → α → Bool) (a : α) (l : List α)
    (h : ∀ b ∈ l, f a b = g a b) : insRev f a l = insRev g a l := by
  induction l with
  | nil => rfl
  | cons b bs ih =>
    have hb : f a b = g a b := h b (List.mem_cons_self b bs)
    have hrest : insRev f a bs = insRev g a bs :=
      ih fun x hx => h x (List.mem_cons_of_mem b hx)
    simp only [insRev, hb, hrest]

/-- Congruence of the driver in the comparator, for comparators agreeing
on all involved elements. -/
theorem goSortAux_congr (f g : α → α → Bool) (l : List α) :
    ∀ acc : List α, (∀ x ∈ acc ++ l, ∀ y ∈ acc ++ l, f x y = g x y) →
      goSortAux f acc l = goSortAux g acc l := by
  induction l with
  | nil => intro acc _; rfl
  | cons x rest ih =>
    intro acc h
    have hins : insRev f x acc = insRev g x acc :=
      insRev_congr f g x acc fun b hb => h x (by simp) b (by simp [hb])
    simp only [goSortAux, hins]
    refine ih (insRev g x acc) ?_
    intro p hp q hq
    have hmem : ∀ z, z ∈ insRev g x acc ++ rest → z ∈ acc ++ x :: rest := by
      intro z hz
      rcases List.mem_append.mp hz with hz | hz
      · rcases (insRev_mem g x z acc).mp hz with rfl | hz
        · simp
        · simp [hz]
      · simp [hz]
    exact h p (hmem p hp) q (hmem q hq)

/-- Congruence of `goSort` in the comparator. -/
theorem goSort_congr (f g : α → α → Bool) (l : List α)
    (h : ∀ x ∈ l, ∀ y ∈ l, f x y = g x y) : goSort f l = goSort g l :=
  goSortAux_congr f g l [] (by simpa using h)

/-- Insertion preserves the no-inversion invariant of the reversed prefix,
for an asymmetric comparator whose negation is transitive. -/
theorem insRev_pairwise (less : α → α → Bool)
    (hasym : ∀ x y, less x y = true → less y x = false)
    (hnt : ∀ x y z, less x y = false → less y z = false → less x z = false)
    (a : α) (l : List α) (h : l.Pairwise fun x y => less x y = false) :
    (insRev less a l).Pairwise fun x y => less x y = false := by
  induction l with
  | nil => simp [insRev]
  | cons b bs ih =>
    rw [List.pairwise_cons] at h
    obtain ⟨hb, hbs⟩ := h
    cases hab : less a b with
    | false =>
      have hif : insRev less a (b :: bs) = a :: b :: bs := by simp [insRev, hab]
      rw [hif, List.pairwise_cons]
      refine ⟨?_, ?_⟩
      · intro x hx
        rcases List.mem_cons.mp hx with heq | hx
        · rw [heq]; exact hab
        · exact hnt a b x hab (hb x hx)
      · rw [List.pairwise_cons]
        exact ⟨hb, hbs⟩
    | true =>
      have hif : insRev less a (b :: bs) = b :: insRev less a bs := by simp [insRev, hab]
      rw [hif, List.pairwise_cons]
      refine ⟨?_, ih hbs⟩
      intro x hx
      rcases (insRev_mem less a x bs).mp hx with heq | hx
      · rw [heq]; exact hasym a b hab
      · exact hb x hx

/-- The driver's output has no inversion with respect to the comparator. -/
theorem goSortAux_pairwise (less : α → α → Bool)
    (hasym : ∀ x y, less x y = true → less y x = false)
    (hnt : ∀ x y z, less x y = false → less y z = false → less x z = false)
    (l : List α) :
    ∀ acc : List α, acc.Pairwise (fun x y => less x y = false) →
      (goSortAux less acc l).Pairwise fun x y => less y x = false := by
  induction l with
  | nil =>
    intro acc hacc
    simp only [goSortAux]
    exact List.pairwise_reverse.mpr hacc
  | cons x rest ih =>
    intro acc hacc
    simp only [goSortAux]
    exact ih (insRev less x acc) (insRev_pairwise less hasym hnt x acc hacc)

/-- `goSort` yields a list with no inversion. -/
theorem goSort_sorted (less : α → α → Bool)
    (hasym : ∀ x y, less x y = true → less y x = false)
    (hnt : ∀ x y z, less x y = false → less y z = false → less x z = false)
    (l : List α) :
    (goSort less l).Pairwise fun x y => less y x = false :=
  goSortAux_pairwise less hasym hnt l [] List.Pairwise.nil

/-- `timeLess` is asymmetric. -/
theorem timeLess_asym (hp : Nat → Int) (x y : S3Object)
    (h : timeLess hp x y = true) : timeLess hp y x = false := by
  simp only [timeLess, decide_eq_true_eq] at h
  simp only [timeLess, decide_eq_false_iff_not, not_lt]
  exact le_of_lt h

/-- The negation of `timeLess` is transitive. -/
theorem timeLess_negtrans (hp : Nat → Int) (x y z : S3Object)
    (h1 : timeLess hp x y = false) (h2 : timeLess hp y z = false) :
    timeLess hp x z = false := by
  simp only [timeLess, decide_eq_false_iff_not, not_lt] at h1 h2 ⊢
  exact le_trans h1 h2

/-- On a listing with pairwise-distinct last-modified times the code's
comparator behaves as the pure time comparator: two distinct artifacts
then live in distinct `time.Time` cells, so the pointer-equality branch
of `Less` is never taken between distinct artifacts. -/
theorem sortableLess_eq_timeLess (hp : Nat → Int) (l : List S3Object)
    (hd : l.Pairwise fun x y => hp x.lastModified ≠ hp y.lastModified) :
    ∀ x ∈ l, ∀ y ∈ l, sortableLess hp x y = timeLess hp x y := by
  intro x hx y hy
  by_cases hxy : x = y
  · subst hxy
    simp [sortableLess, timeLess, lt_irrefl]
  · have hne : hp x.lastModified ≠ hp y.lastModified :=
      List.Pairwise.forall (fun _ _ h => Ne.symm h) hd hx hy hxy
    have hcell : ¬ x.lastModified = y.lastModified := fun hc => hne (by rw [hc])
    simp [sortableLess, timeLess, hcell]

/-! ### Lemmas about listing accumulation and the delete loop -/

/-- The page fold appends onto its accumulator. -/
theorem listAllPages_foldl (pages : List (List S3Object)) :
    ∀ acc : List S3Object, pages.foldl (fun a p => a ++ p) acc = acc ++ pages.flatten := by
  induction pages with
  | nil => intro acc; simp
  | cons p ps ih => intro acc; simp [ih, List.append_assoc]

/-- Accumulating all pages concatenates them. -/
theorem listAllPages_eq_join (pages : List (List S3Object)) :
    listAllPages pages = pages.flatten := by
  simpa [listAllPages] using listAllPages_foldl pages []

/-- When every delete succeeds the loop deletes every obsolete artifact,
in order, and reports success. -/
theorem deleteLoop_all_ok (delete : String → Option Nat) (l : List S3Object)
    (h : ∀ o ∈ l, delete o.key = none) :
    deleteLoop delete l = (l.map S3Object.key, none) := by
  induction l with
  | nil => rfl
  | cons o rest ih =>
    have ho := h o (List.mem_cons_self o rest)
    simp [deleteLoop, ho, ih fun x hx => h x (List.mem_cons_of_mem o hx)]

/-- The loop stops at the first failing delete: the calls issued are the
successful prefix plus the failing call, and the loop's error is the
failing delete's error. -/
theorem deleteLoop_first_error (delete : String → Option Nat) (pre : List S3Object)
    (bad : S3Object) (post : List S3Object) (e : Nat)
    (hpre : ∀ o ∈ pre, delete o.key = none) (hbad : delete bad.key = some e) :
    deleteLoop delete (pre ++ bad :: post) =
      (pre.map S3Object.key ++ [bad.key], some (RetErr.deleteFailed e)) := by
  induction pre with
  | nil => simp [deleteLoop, hbad]
  | cons o rest ih =>
    have ho := hpre o (List.mem_cons_self o rest)
    simp [deleteLoop, ho, ih fun x hx => hpre x (List.mem_cons_of_mem o hx)]

/-- Reduction of `EnsureRetention` when the listing succeeds and the
count exceeds a non-negative `max`. -/
theorem EnsureRetention_success_eq (hp : Nat → Int) (delete : String → Option Nat)
    (pages : List (List S3Object)) (max : Int)
    (h0 : 0 ≤ max) (hlen : max < ((listAllPages pages).length : Int)) :
    EnsureRetention hp none delete pages max =
      some (deleteLoop delete
        ((goSort (sortableLess hp) (listAllPages pages)).drop max.toNat)) := by
  have hgt : ((listAllPages pages).length : Int) > max := hlen
  have hneg : ¬ max < 0 := by omega
  have hpos : (listAllPages pages).length > 0 := by omega
  simp only [EnsureRetention, if_pos hgt, if_neg hneg, if_pos hpos]

/-! ### Retention claims -/

/-- Claim C1: for every listing with pairwise-distinct last-modified times
and every retention limit `max` with `0 ≤ max <` number of artifacts
(deletes succeeding), `EnsureRetention max` deletes exactly the artifacts
other than the `max` most-recently-modified ones: the retained prefix has
length `max`, retained and deleted artifacts partition the listing, and
every retained artifact's last-modified time is strictly greater than
every deleted artifact's. -/
theorem EnsureRetention_retains_most_recent (hp : Nat → Int) (delete : String → Option Nat)
    (pages : List (List S3Object)) (max : Int)
    (objs sorted retained deleted : List S3Object)
    (hobjs : objs = listAllPages pages)
    (hsorted : sorted = goSort (sortableLess hp) objs)
    (hret : retained = sorted.take max.toNat)
    (hdel : deleted = sorted.drop max.toNat)
    (hdistinct : objs.Pairwise fun x y => hp x.lastModified ≠ hp y.lastModified)
    (hmax0 : 0 ≤ max) (hmaxn : max < (objs.length : Int))
    (hdelete : ∀ k, delete k = none) :
    EnsureRetention hp none delete pages max = some (deleted.map S3Object.key, none) ∧
    retained.length = max.toNat ∧
    List.Perm (retained ++ deleted) objs ∧
    ∀ x ∈ retained, ∀ y ∈ deleted, hp y.lastModified < hp x.lastModified := by
  have hperm : List.Perm sorted objs := by
    rw [hsorted]; exact goSort_perm _ _
  have hcongr : sorted = goSort (timeLess hp) objs := by
    rw [hsorted]
    exact goSort_congr _ _ objs (sortableLess_eq_timeLess hp objs hdistinct)
  have hsortedPW : (goSort (timeLess hp) objs).Pairwise
      (fun x y => timeLess hp y x = false) :=
    goSort_sorted (timeLess hp) (timeLess_asym hp) (timeLess_negtrans hp) objs
  have hdesc : sorted.Pairwise fun x y => hp y.lastModified ≤ hp x.lastModified := by
    rw [hcongr]
    refine hsortedPW.imp ?_
    intro a b hab
    simpa [timeLess, decide_eq_false_iff_not, not_lt] using hab
  have hsymm : ∀ {a b : S3Object}, hp a.lastModified ≠ hp b.lastModified →
      hp b.lastModified ≠ hp a.lastModified := fun h => Ne.symm h
  have hndSorted : sorted.Pairwise fun x y => hp x.lastModified ≠ hp y.lastModified :=
    List.Pairwise.perm hdistinct hperm.symm hsymm
  have hstrict : sorted.Pairwise fun x y => hp y.lastModified < hp x.lastModified := by
    refine (hdesc.and hndSorted).imp ?_
    rintro a b ⟨hle, hne⟩
    exact lt_of_le_of_ne hle (Ne.symm hne)
  have hsplit : sorted.take max.toNat ++ sorted.drop max.toNat = sorted :=
    List.take_append_drop _ _
  have hcross : ∀ x ∈ retained, ∀ y ∈ deleted,
      hp y.lastModified < hp x.lastModified := by
    rw [hret, hdel]
    have h2 := hstrict
    rw [← hsplit] at h2
    exact (List.pairwise_append.mp h2).2.2
  have hlensorted : sorted.length = objs.length := hperm.length_eq
  have htn : max.toNat ≤ sorted.length := by rw [hlensorted]; omega
  have hlen_ret : retained.length = max.toNat := by
    rw [hret, List.length_take]
    exact Nat.min_eq_left htn
  refine ⟨?_, hlen_ret, ?_, hcross⟩
  · rw [EnsureRetention_success_eq hp delete pages max hmax0 (by rw [← hobjs]; exact hmaxn)]
    rw [← hobjs, ← hsorted, deleteLoop_all_ok delete _ fun o _ => hdelete o.key, hdel]
  · rw [hret, hdel, hsplit]
    exact hperm

/-- Witness for C1: the spec's Scenario B, five artifacts `k1..k5` with
ascending times listed over two pages and limit 3; `k1` and `k2` are
deleted, `k3,k4,k5` are retained. -/
theorem EnsureRetention_retains_most_recent_witness :
    EnsureRetention hpEx none delOk pagesEx 3 =
      some (List.map S3Object.key [k2ex, k1ex], none) ∧
    ([k5ex, k4ex, k3ex] : List S3Object).length = (3 : Int).toNat ∧
    List.Perm ([k5ex, k4ex, k3ex] ++ [k2ex, k1ex]) [k1ex, k2ex, k3ex, k4ex, k5ex] ∧
    ∀ x ∈ [k5ex, k4ex, k3ex], ∀ y ∈ [k2ex, k1ex],
      hpEx y.lastModified < hpEx x.lastModified :=
  EnsureRetention_retains_most_recent hpEx delOk pagesEx 3
    [k1ex, k2ex, k3ex, k4ex, k5ex] [k5ex, k4ex, k3ex, k2ex, k1ex]
    [k5ex, k4ex, k3ex] [k2ex, k1ex]
    (by decide) (by decide) (by decide) (by decide) (by decide) (by decide) (by decide)
    (fun _ => rfl)

/-- Claim C2 (code bug): the comparator's tie branch tests `*time.Time`
POINTER equality, so for artifacts in distinct cells holding identical
times the key tie-break never fires; with two artifacts of equal
last-modified time and limit 1, the listing order decides which artifact
survives: listing `[b, a]` deletes key `a` (spec: delete `b`, keep the
ascending key `a`), and the permuted listing `[a, b]` deletes key `b`, so
the retained set depends on listing order. -/
theorem EnsureRetention_tie_break_ignores_keys :
    hpTie tieA.lastModified = hpTie tieB.lastModified ∧
    tieA.key = "a" ∧ tieB.key = "b" ∧
    EnsureRetention hpTie none delOk [[tieB, tieA]] 1 = some (["a"], none) ∧
    EnsureRetention hpTie none delOk [[tieA, tieB]] 1 = some (["b"], none) := by
  refine ⟨rfl, rfl, rfl, by decide, by decide⟩

/-- Claim C4: deletion proceeds one artifact at a time in sorted order and
stops at the first failing delete, returning that error: the issued calls
are exactly the successfully-deleted prefix plus the failing call, and
the artifacts after the failure are not attempted. -/
theorem EnsureRetention_aborts_on_first_failure (hp : Nat → Int)
    (delete : String → Option Nat) (pages : List (List S3Object)) (max : Int)
    (pre : List S3Object) (bad : S3Object) (post : List S3Object) (e : Nat)
    (hmax0 : 0 ≤ max) (hmaxn : max < ((listAllPages pages).length : Int))
    (hobsolete : (goSort (sortableLess hp) (listAllPages pages)).drop max.toNat =
      pre ++ bad :: post)
    (hpre : ∀ o ∈ pre, delete o.key = none)
    (hbad : delete bad.key = some e) :
    EnsureRetention hp none delete pages max =
      some (pre.map S3Object.key ++ [bad.key], some (RetErr.deleteFailed e)) := by
  rw [EnsureRetention_success_eq hp delete pages max hmax0 hmaxn, hobsolete,
    deleteLoop_first_error delete pre bad post e hpre hbad]

/-- Witness for C4: three artifacts with ascending times, limit 1; the
obsolete artifacts are `k2` then `k1`, the delete of `k2` succeeds and the
delete of `k1` fails with error 7, which the call returns after issuing
exactly the two delete calls. -/
theorem EnsureRetention_aborts_on_first_failure_witness :
    EnsureRetention hpEx none delFailK1 [[k1ex, k2ex, k3ex]] 1 =
      some (List.map S3Object.key [k2ex] ++ [k1ex.key],
        some (RetErr.deleteFailed 7)) :=
  EnsureRetention_aborts_on_first_failure hpEx delFailK1 [[k1ex, k2ex, k3ex]] 1
    [k2ex] k1ex [] 7 (by decide) (by decide) (by decide) (by decide) (by decide)

/-- Claim C5: the retention decision is a function of the merged listing
alone: two paginations with the same concatenation produce identical
outcomes, and every pagination behaves like the single merged page, so no
artifact is deleted on the basis of a proper subset of the pages. -/
theorem EnsureRetention_decides_on_merged_pages (hp : Nat → Int)
    (delete : String → Option Nat) (pages1 pages2 : List (List S3Object)) (max : Int)
    (h : listAllPages pages1 = listAllPages pages2) :
    EnsureRetention hp none delete pages1 max = EnsureRetention hp none delete pages2 max ∧
    EnsureRetention hp none delete pages1 max =
      EnsureRetention hp none delete [listAllPages pages1] max := by
  have hsingle : listAllPages [listAllPages pages1] = listAllPages pages1 := by
    simp [listAllPages]
  constructor
  · simp only [EnsureRetention, h]
  · simp only [EnsureRetention, hsingle]

/-- Witness for C5: the two-page example listing behaves exactly like the
same artifacts listed on one page, or split into three pages. -/
theorem EnsureRetention_decides_on_merged_pages_witness :
    EnsureRetention hpEx none delOk pagesEx 3 =
      EnsureRetention hpEx none delOk [[k1ex], [k2ex], [k3ex, k4ex], [k5ex]] 3 ∧
    EnsureRetention hpEx none delOk pagesEx 3 =
      EnsureRetention hpEx none delOk [listAllPages pagesEx] 3 :=
  EnsureRetention_decides_on_merged_pages hpEx delOk pagesEx
    [[k1ex], [k2ex], [k3ex, k4ex], [k5ex]] 3 (by decide)

/-- Claim C6: with a non-empty listing, `EnsureRetention 0` deletes every
artifact under the prefix (each exactly once) and succeeds. -/
theorem EnsureRetention_zero_deletes_everything (hp : Nat → Int)
    (delete : String → Option Nat) (pages : List (List S3Object))
    (hne : listAllPages pages ≠ [])
    (hdelete : ∀ k, delete k = none) :
    ∃ calls, EnsureRetention hp none delete pages 0 = some (calls, none) ∧
      List.Perm calls ((listAllPages pages).map S3Object.key) := by
  have hlen : (0 : Int) < ((listAllPages pages).length : Int) := by
    have := List.length_pos.mpr hne
    omega
  refine ⟨(goSort (sortableLess hp) (listAllPages pages)).map S3Object.key, ?_, ?_⟩
  · rw [EnsureRetention_success_eq hp delete pages 0 le_rfl hlen]
    simp only [Int.toNat_zero, List.drop_zero]
    rw [deleteLoop_all_ok delete _ fun o _ => hdelete o.key]
  · exact (goSort_perm _ _).map S3Object.key

/-- Witness for C6: enforcing retention 0 on the five-artifact listing
deletes all five keys. -/
theorem EnsureRetention_zero_deletes_everything_witness :
    ∃ calls, EnsureRetention hpEx none delOk pagesEx 0 = some (calls, none) ∧
      List.Perm calls ((listAllPages pagesEx).map S3Object.key) :=
  EnsureRetention_zero_deletes_everything hpEx delOk pagesEx (by decide) (fun _ => rfl)

/-- Claim C7: when the listing does not exceed `max`, no delete call is
issued, the stored artifact set is untouched and the call succeeds. -/
theorem EnsureRetention_noop_within_limit (hp : Nat → Int)
    (delete : String → Option Nat) (pages : List (List S3Object)) (max : Int)
    (h : ((listAllPages pages).length : Int) ≤ max) :
    EnsureRetention hp none delete pages max = some ([], none) := by
  have hng : ¬ ((listAllPages pages).length : Int) > max := by omega
  simp only [EnsureRetention, if_neg hng]

/-- Witness for C7: five artifacts with limit 5 (and with limit 7) make no
delete call and succeed. -/
theorem EnsureRetention_noop_within_limit_witness :
    EnsureRetention hpEx none delOk pagesEx 5 = some ([], none) ∧
    EnsureRetention hpEx none delOk pagesEx 7 = some ([], none) :=
  ⟨EnsureRetention_noop_within_limit hpEx delOk pagesEx 5 (by decide),
   EnsureRetention_noop_within_limit hpEx delOk pagesEx 7 (by decide)⟩

/-- Claim C10: whenever the listing succeeds, a negative `max` drives the
slice expression `objects[max:]` out of bounds (the count check
`len(objects) > max` always passes, even on an empty listing), so the
call panics; for `max ≥ 0` the call always returns. -/
theorem EnsureRetention_negative_max_panics (hp : Nat → Int)
    (delete : String → Option Nat) (pages : List (List S3Object)) (max : Int) :
    (max < 0 → EnsureRetention hp none delete pages max = none) ∧
    (0 ≤ max → (EnsureRetention hp none delete pages max).isSome = true) := by
  constructor
  · intro h
    have hgt : ((listAllPages pages).length : Int) > max := by omega
    simp only [EnsureRetention, if_pos hgt, if_pos h]
  · intro h
    have hneg : ¬ max < 0 := by omega
    simp only [EnsureRetention]
    by_cases hgt : ((listAllPages pages).length : Int) > max
    · rw [if_pos hgt, if_neg hneg]
      by_cases hpos : (listAllPages pages).length > 0
      · rw [if_pos hpos]; rfl
      · rw [if_neg hpos]; rfl
    · rw [if_neg hgt]; rfl

/-- Witness for C10: with an empty listing, `max = -1` panics while
`max = 0` returns. -/
theorem EnsureRetention_negative_max_panics_witness :
    EnsureRetention hpEx none delOk [] (-1) = none ∧
    (EnsureRetention hpEx none delOk [] 0).isSome = true :=
  ⟨(EnsureRetention_negative_max_panics hpEx delOk [] (-1)).1 (by decide),
   (EnsureRetention_negative_max_panics hpEx delOk [] 0).2 (by decide)⟩

/-! ### Store claims -/

/-- The upload parameters carry the requested key unchanged. -/
theorem uploadParamsFor_key (s : S3Destination) (key : String) (body : List Nat) :
    (uploadParamsFor s key body).key = key := by
  unfold uploadParamsFor
  cases s.encryptionKey with
  | none => rfl
  | some k => by_cases h : s.encryptionAlgorithm = "" <;> simp [h]

/-- The `HeadObject` parameters carry the requested key unchanged. -/
theorem headParamsFor_key (s : S3Destination) (key : String) :
    (headParamsFor s key).key = key := by
  unfold headParamsFor
  cases s.encryptionKey with
  | none => rfl
  | some k => by_cases h : s.encryptionAlgorithm = "" <;> simp [h]

/-- Upload and `HeadObject` parameters always agree on both encryption
fields, whatever the configuration. -/
theorem uploadParamsFor_sse_eq (s : S3Destination) (key : String) (body : List Nat) :
    (uploadParamsFor s key body).sseCustomerAlgorithm =
      (headParamsFor s key).sseCustomerAlgorithm ∧
    (uploadParamsFor s key body).sseCustomerKey = (headParamsFor s key).sseCustomerKey := by
  unfold uploadParamsFor headParamsFor
  cases s.encryptionKey with
  | none => exact ⟨rfl, rfl⟩
  | some k => by_cases h : s.encryptionAlgorithm = "" <;> simp [h]

/-- Every `Store` trace is the upload call alone or the upload call
followed by the `HeadObject` call, both on the joined key. -/
theorem Store_trace_shape (s : S3Destination) (upload : UploadInput → Except Nat UploadAck)
    (head : HeadObjectInput → Except Nat HeadOutput) (obj : BackupObject) :
    (Store s upload head obj).2 =
      [StoreCall.upload (uploadParamsFor s (goJoin s.pfx obj.id) obj.data)] ∨
    (Store s upload head obj).2 =
      [StoreCall.upload (uploadParamsFor s (goJoin s.pfx obj.id) obj.data),
       StoreCall.headObject (headParamsFor s (goJoin s.pfx obj.id))] := by
  simp only [Store]
  cases upload (uploadParamsFor s (goJoin s.pfx obj.id) obj.data) with
  | error e => left; rfl
  | ok a =>
    cases head (headParamsFor s (goJoin s.pfx obj.id)) with
    | error e => right; rfl
    | ok h => right; rfl

/-- Claim C3: with an encryption key configured and no algorithm
specified, both the upload and the follow-up size lookup carry the
default algorithm constant together with the configured key; and in
general the encryption parameters attached to the size lookup are
identical to those used on the upload. -/
theorem Store_encryption_params (s : S3Destination)
    (upload : UploadInput → Except Nat UploadAck)
    (head : HeadObjectInput → Except Nat HeadOutput)
    (obj : BackupObject) (k : String) (hk : s.encryptionKey = some k) :
    (s.encryptionAlgorithm = "" →
      ∀ c ∈ (Store s upload head obj).2,
        c.sseAlg = some DefaultEncryptionAlgorithm ∧ c.sseKey = some k) ∧
    (∀ ui hi, StoreCall.upload ui ∈ (Store s upload head obj).2 →
      StoreCall.headObject hi ∈ (Store s upload head obj).2 →
      hi.sseCustomerAlgorithm = ui.sseCustomerAlgorithm ∧
      hi.sseCustomerKey = ui.sseCustomerKey) := by
  have hsse := uploadParamsFor_sse_eq s (goJoin s.pfx obj.id) obj.data
  constructor
  · intro halg c hc
    have hx : ∀ key body,
        (uploadParamsFor s key body).sseCustomerAlgorithm = some DefaultEncryptionAlgorithm ∧
        (uploadParamsFor s key body).sseCustomerKey = some k := by
      intro key body
      unfold uploadParamsFor
      rw [hk]
      simp [halg]
    have hy : ∀ key,
        (headParamsFor s key).sseCustomerAlgorithm = some DefaultEncryptionAlgorithm ∧
        (headParamsFor s key).sseCustomerKey = some k := by
      intro key
      unfold headParamsFor
      rw [hk]
      simp [halg]
    obtain hshape | hshape := Store_trace_shape s upload head obj
    · rw [hshape, List.mem_singleton] at hc
      subst hc
      exact ⟨by simp [StoreCall.sseAlg, (hx _ _).1], by simp [StoreCall.sseKey, (hx _ _).2]⟩
    · rw [hshape] at hc
      rcases List.mem_cons.mp hc with heq | hc
      · subst heq
        exact ⟨by simp [StoreCall.sseAlg, (hx _ _).1], by simp [StoreCall.sseKey, (hx _ _).2]⟩
      · rw [List.mem_singleton] at hc
        subst hc
        exact ⟨by simp [StoreCall.sseAlg, (hy _).1], by simp [StoreCall.sseKey, (hy _).2]⟩
  · intro ui hi hu hh
    obtain hshape | hshape := Store_trace_shape s upload head obj
    · rw [hshape] at hh
      simp at hh
    · rw [hshape] at hu hh
      simp only [List.mem_cons, List.mem_singleton, List.not_mem_nil, or_false,
        StoreCall.upload.injEq, StoreCall.headObject.injEq, false_or,
        reduceCtorEq] at hu hh
      rw [hu, hh]
      exact ⟨hsse.1.symm, hsse.2.symm⟩

/-- Witness for C3: with the example destination (key configured,
algorithm empty) the upload call carries the default algorithm and the
configured key. -/
theorem Store_encryption_params_witness :
    (StoreCall.upload (uploadParamsFor destEx (goJoin destEx.pfx objEx.id) objEx.data)).sseAlg
        = some DefaultEncryptionAlgorithm ∧
    (StoreCall.upload (uploadParamsFor destEx (goJoin destEx.pfx objEx.id) objEx.data)).sseKey
        = some "enckey" :=
  (Store_encryption_params destEx uploadOkEx headOkEx objEx "enckey" rfl).1 rfl
    (StoreCall.upload (uploadParamsFor destEx (goJoin destEx.pfx objEx.id) objEx.data))
    (by decide)

/-- Splitting a slash-free segment yields that single segment. -/
theorem splitSlash_no_slash (p : List Char) (h : '/' ∉ p) : splitSlash p = [p] := by
  induction p with
  | nil => rfl
  | cons c cs ih =>
    have hc : ¬ c = '/' := fun hcc => h (by simp [hcc])
    have hcs : '/' ∉ cs := fun hm => h (List.mem_cons_of_mem c hm)
    simp [splitSlash, hc, ih hcs]

/-- Splitting around the separator after a slash-free segment. -/
theorem splitSlash_append (p q : List Char) (h : '/' ∉ p) :
    splitSlash (p ++ '/' :: q) = p :: splitSlash q := by
  induction p with
  | nil => simp [splitSlash]
  | cons c cs ih =>
    have hc : ¬ c = '/' := fun hcc => h (by simp [hcc])
    have hcs : '/' ∉ cs := fun hm => h (List.mem_cons_of_mem c hm)
    simp [splitSlash, hc, ih hcs]

/-- Cleaning two ordinary elements keeps both. -/
theorem cleanParts_two (p q : List Char)
    (hp1 : p ≠ []) (hp3 : p ≠ ['.']) (hp4 : p ≠ ['.', '.'])
    (hq1 : q ≠ []) (hq3 : q ≠ ['.']) (hq4 : q ≠ ['.', '.']) :
    cleanParts false [] [p, q] = [p, q] := by
  simp [cleanParts, hp1, hp3, hp4, hq1, hq3, hq4]

/-- A path of two ordinary slash-free segments is already clean. -/
theorem cleanPathData_join (p q : List Char)
    (hp1 : p ≠ []) (hp2 : '/' ∉ p) (hp3 : p ≠ ['.']) (hp4 : p ≠ ['.', '.'])
    (hq1 : q ≠ []) (hq2 : '/' ∉ q) (hq3 : q ≠ ['.']) (hq4 : q ≠ ['.', '.']) :
    cleanPathData (p ++ '/' :: q) = p ++ '/' :: q := by
  have hne : p ++ '/' :: q ≠ [] := by cases p <;> simp
  have hsplit : splitSlash (p ++ '/' :: q) = [p, q] := by
    rw [splitSlash_append p q hp2, splitSlash_no_slash q hq2]
  have hrooted : ((p ++ '/' :: q).head? = some '/') = False := by
    cases p with
    | nil => exact absurd rfl hp1
    | cons c cs =>
      have hc : ¬ c = '/' := fun hcc => hp2 (by simp [hcc])
      simp [hc]
  have hclean : cleanParts false [] [p, q] = [p, q] :=
    cleanParts_two p q hp1 hp3 hp4 hq1 hq3 hq4
  have hjoin : joinSlash [p, q] = p ++ '/' :: q := rfl
  simp only [cleanPathData, if_neg hne, hsplit, hrooted, decide_False, hclean, hjoin,
    Bool.false_eq_true, if_false]

/-- `String.append` concatenates the character data. -/
theorem string_append_data (a b : String) : (a ++ b).data = a.data ++ b.data := by
  cases a
  cases b
  rfl

/-- For a non-empty single-segment prefix and identifier, `filepath.Join`
is plain `/`-concatenation. -/
theorem goJoin_clean (a b : String)
    (ha1 : a.data ≠ []) (ha2 : '/' ∉ a.data) (ha3 : a.data ≠ ['.']) (ha4 : a.data ≠ ['.', '.'])
    (hb1 : b.data ≠ []) (hb2 : '/' ∉ b.data) (hb3 : b.data ≠ ['.']) (hb4 : b.data ≠ ['.', '.']) :
    goJoin a b = a ++ "/" ++ b := by
  have hane : ¬ a = "" := by
    intro h
    rw [h] at ha1
    exact ha1 rfl
  have hdata : (a ++ "/" ++ b).data = a.data ++ '/' :: b.data := by
    rw [string_append_data, string_append_data]
    simp
  unfold goJoin
  rw [if_neg hane]
  unfold cleanPath
  rw [hdata, cleanPathData_join a.data b.data ha1 ha2 ha3 ha4 hb1 hb2 hb3 hb4, ← hdata]

/-- Claim C8: the storage key is `prefix/obj.ID`; on success the returned
size is the `ContentLength` of the follow-up `HeadObject` response (the
upload acknowledgment carries no size at all); an upload error is
returned as-is with size 0 and without issuing the `HeadObject` call, a
`HeadObject` error is returned as-is with size 0, and no cleanup call of
any kind is issued. -/
theorem Store_key_and_head_size (s : S3Destination)
    (upload : UploadInput → Except Nat UploadAck)
    (head : HeadObjectInput → Except Nat HeadOutput) (obj : BackupObject)
    (hp1 : s.pfx.data ≠ []) (hp2 : '/' ∉ s.pfx.data)
    (hp3 : s.pfx.data ≠ ['.']) (hp4 : s.pfx.data ≠ ['.', '.'])
    (hi1 : obj.id.data ≠ []) (hi2 : '/' ∉ obj.id.data)
    (hi3 : obj.id.data ≠ ['.']) (hi4 : obj.id.data ≠ ['.', '.']) :
    (∀ c ∈ (Store s upload head obj).2, c.callKey = s.pfx ++ "/" ++ obj.id) ∧
    (∀ e, (∀ i, upload i = Except.error e) →
      (Store s upload head obj).1 = (0, some e) ∧
      (Store s upload head obj).2 =
        [StoreCall.upload (uploadParamsFor s (s.pfx ++ "/" ++ obj.id) obj.data)]) ∧
    (∀ a e, (∀ i, upload i = Except.ok a) → (∀ i, head i = Except.error e) →
      (Store s upload head obj).1 = (0, some e)) ∧
    (∀ a h, (∀ i, upload i = Except.ok a) → (∀ i, head i = Except.ok h) →
      (Store s upload head obj).1 = (h.contentLength, none)) := by
  have hkey : goJoin s.pfx obj.id = s.pfx ++ "/" ++ obj.id :=
    goJoin_clean s.pfx obj.id hp1 hp2 hp3 hp4 hi1 hi2 hi3 hi4
  refine ⟨?_, ?_, ?_, ?_⟩
  · intro c hc
    obtain hshape | hshape := Store_trace_shape s upload head obj
    · rw [hshape, List.mem_singleton] at hc
      subst hc
      simp [StoreCall.callKey, uploadParamsFor_key, hkey]
    · rw [hshape] at hc
      rcases List.mem_cons.mp hc with heq | hc
      · subst heq
        simp [StoreCall.callKey, uploadParamsFor_key, hkey]
      · rw [List.mem_singleton] at hc
        subst hc
        simp [StoreCall.callKey, headParamsFor_key, hkey]
  · intro e he
    have hst : Store s upload head obj =
        ((0, some e),
         [StoreCall.upload (uploadParamsFor s (goJoin s.pfx obj.id) obj.data)]) := by
      simp only [Store]
      rw [he]
    rw [hst, hkey]
    exact ⟨rfl, rfl⟩
  · intro a e hu hh
    have hst : (Store s upload head obj).1 = (0, some e) := by
      simp only [Store]
      rw [hu, hh]
    exact hst
  · intro a h hu hh
    have hst : (Store s upload head obj).1 = (h.contentLength, none) := by
      simp only [Store]
      rw [hu, hh]
    exact hst

/-- Witness for C8: the example destination stores `artifact1` under
`backups/artifact1` and returns the `HeadObject` size 42. -/
theorem Store_key_and_head_size_witness :
    (StoreCall.headObject (headParamsFor destEx (goJoin destEx.pfx objEx.id))).callKey
        = destEx.pfx ++ "/" ++ objEx.id ∧
    (Store destEx uploadOkEx headOkEx objEx).1 = (42, none) :=
  ⟨(Store_key_and_head_size destEx uploadOkEx headOkEx objEx (by decide) (by decide)
      (by decide) (by decide) (by decide) (by decide) (by decide) (by decide)).1
      (StoreCall.headObject (headParamsFor destEx (goJoin destEx.pfx objEx.id))) (by decide),
   (Store_key_and_head_size destEx uploadOkEx headOkEx objEx (by decide) (by decide)
      (by decide) (by decide) (by decide) (by decide) (by decide) (by decide)).2.2.2
      ⟨"loc"⟩ ⟨42⟩ (fun _ => rfl) (fun _ => rfl)⟩

/-! ### Construction claim -/

/-- Claim C9: `NewS3Destination` attempts to create the destination
bucket; a creation error coded bucket-already-exists or
bucket-already-owned-by-you is treated as success and construction
proceeds with the configured fields, while any other creation error,
including a non-classifiable one, fails construction with that error. -/
theorem NewS3Destination_bucket_creation (conf : S3DestinationConf) :
    NewS3Destination conf none none = Except.ok (mkS3Destination conf) ∧
    NewS3Destination conf none
        (some (CreateBucketError.awsError errCodeBucketAlreadyExists)) =
      Except.ok (mkS3Destination conf) ∧
    NewS3Destination conf none
        (some (CreateBucketError.awsError errCodeBucketAlreadyOwnedByYou)) =
      Except.ok (mkS3Destination conf) ∧
    (∀ code, code ≠ errCodeBucketAlreadyExists → code ≠ errCodeBucketAlreadyOwnedByYou →
      NewS3Destination conf none (some (CreateBucketError.awsError code)) =
        Except.error (NewDestinationError.createBucketError
          (CreateBucketError.awsError code))) ∧
    (∀ e, NewS3Destination conf none (some (CreateBucketError.otherError e)) =
      Except.error (NewDestinationError.createBucketError
        (CreateBucketError.otherError e))) := by
  refine ⟨rfl, by rfl, by rfl, ?_, fun e => rfl⟩
  intro code h1 h2
  simp only [NewS3Destination]
  rw [if_pos ⟨h1, h2⟩]

/-- Witness for C9: already-exists is tolerated, an unrelated AWS code and
a non-classifiable error are fatal. -/
theorem NewS3Destination_bucket_creation_witness :
    NewS3Destination confEx none (some (CreateBucketError.awsError "BucketAlreadyExists")) =
      Except.ok (mkS3Destination confEx) ∧
    NewS3Destination confEx none (some (CreateBucketError.awsError "AccessDenied")) =
      Except.error (NewDestinationError.createBucketError
        (CreateBucketError.awsError "AccessDenied")) ∧
    NewS3Destination confEx none (some (CreateBucketError.otherError 3)) =
      Except.error (NewDestinationError.createBucketError
        (CreateBucketError.otherError 3)) :=
  ⟨(NewS3Destination_bucket_creation confEx).2.1,
   (NewS3Destination_bucket_creation confEx).2.2.2.1 "AccessDenied" (by decide) (by decide),
   (NewS3Destination_bucket_creation confEx).2.2.2.2 3⟩
